import Mathlib

/-!
Verification of the glancy client-side storage library against its
natural-language specification.

The development shallowly embeds the TypeScript sources:
  * `src/utils/validators.ts`   — `validateStorageKey`, `validateTTL`
  * `src/storage/BaseStorage.ts`— namespacing and the expiry predicate
  * `src/storage/Glancy.ts`     — the storage facade (get/set/remove/clear/
                                  keys/touch/getTTL/size/getMany/setMany)
  * `src/compression/LZWCompressor.ts` — the adaptive LZW compressor

Modelling conventions:
  * JavaScript numbers that occur in the facade (timestamps, TTLs) are
    modelled as rationals `ℚ`; `Number.isInteger q` is `q.den = 1`.
    NaN/±Infinity are not representable; no claim needs them.
  * The physical `localStorage` is an insertion-ordered association list
    from physical key strings to stored envelopes.  The facade is modelled
    in its base configuration (no compression, no encryption): for that
    configuration `JSON.parse` is a two-sided inverse of `JSON.stringify`
    on the envelopes the facade itself writes, so the store holds the
    parsed envelope directly.
  * Strings inside the compressor are sequences of UTF-16 code units,
    modelled as `List Nat`; this is faithful to JavaScript strings, which
    may hold lone surrogates that Lean's `String` cannot represent.
  * `try`/`catch` arms whose guarded body cannot throw in the pure model
    (e.g. quota exhaustion — the modelled store is unbounded) are omitted,
    with a note at the definition.
-/

/-- JSON-serializable JavaScript values (plus `undefined`, which is a
distinct JavaScript value relevant to `value ?? {}` in `Glancy.set`). -/
inductive JsValue where
  | null : JsValue
  | undef : JsValue
  | bool (b : Bool) : JsValue
  | num (q : ℚ) : JsValue
  | str (s : String) : JsValue
  | arr (elems : List JsValue) : JsValue
  | obj (fields : List (String × JsValue)) : JsValue

/-- Models `typeof item.value === 'undefined'` from `Glancy.get`. -/
def JsValue.isUndef : JsValue → Bool
  | .undef => true
  | _ => false

/-- The persisted envelope `GlancyItem<T>` from `src/types.ts`:
`{ value: T; timestamp: number; ttl?: number }`. -/
structure GlancyItem where
  value : JsValue
  timestamp : ℚ
  ttl : Option ℚ

/-- The result shape `GlancyResponse<T>` from `src/types.ts`:
`{ success: boolean; message: string; data: T | null | undefined }`. -/
structure GlancyResponse (α : Type) where
  success : Bool
  message : String
  data : α

/-- `validateStorageKey` from `src/utils/validators.ts`.  The JS guard is
`!key || typeof key !== 'string'`; on actual strings this is exactly
`key === ''` (the non-string branch is outside the modelled domain). -/
def validateStorageKey (key : String) : GlancyResponse Unit :=
  if key = "" then
    { success := false, message := "Invalid storage key", data := () }
  else
    { success := true, message := "Storage key is valid", data := () }

/-- `validateTTL` from `src/utils/validators.ts`: a provided TTL is invalid
when it is not an integer or is negative
(`ttl !== undefined && (!Number.isInteger(ttl) || ttl < 0)`). -/
def validateTTL (ttl : Option ℚ) : GlancyResponse Unit :=
  match ttl with
  | none => { success := true, message := "TTL is valid", data := () }
  | some t =>
    if t.den ≠ 1 ∨ t < 0 then
      { success := false, message := "Invalid TTL value", data := () }
    else
      { success := true, message := "TTL is valid", data := () }

/-- The physical key-value store backing `localStorage`, as an
insertion-ordered association list (key order of `Object.keys`). -/
def Store : Type := List (String × GlancyItem)

/-- `localStorage.getItem`: first (unique) binding of the key, if any. -/
def lsGet : Store → String → Option GlancyItem
  | [], _ => none
  | e :: rest, k => if e.1 = k then some e.2 else lsGet rest k

/-- `localStorage.setItem`: replace the binding in place, else append
(matching JS insertion-order semantics of object/storage keys). -/
def lsSet : Store → String → GlancyItem → Store
  | [], k, it => [(k, it)]
  | e :: rest, k, it => if e.1 = k then (k, it) :: rest else e :: lsSet rest k it

/-- `localStorage.removeItem`: drop the binding of the key.  Physical keys
are unique in every store reachable through the facade, so dropping every
binding of the key is the same operation there. -/
def lsRemove (st : Store) (k : String) : Store :=
  st.filter (fun e => !(e.1 == k))

/-- `String.prototype.startsWith`, i.e. list-prefix on the code points. -/
def sStartsWith (s pre : String) : Bool := decide (pre.data <+: s.data)

/-- Helper for `String.prototype.replace` with a plain-string pattern:
remove the first occurrence of `pat` (replacement by the empty string). -/
def jsReplaceFirstAux (pat : List Char) : List Char → List Char
  | [] => []
  | c :: rest =>
    if pat <+: (c :: rest) then List.drop pat.length (c :: rest)
    else c :: jsReplaceFirstAux pat rest

/-- `s.replace(pat, '')` for a plain-string `pat`. -/
def jsReplaceFirst (s pat : String) : String :=
  ⟨jsReplaceFirstAux pat.data s.data⟩

/-- Facade configuration: the constructor-fixed state of a `Glancy`
instance in the base configuration (no compressor, no cipher).
`nspace` is the source's `namespace` field (a Lean keyword). -/
structure GlancyConfig where
  nspace : String
  defaultTTL : Option ℚ

/-- `BaseStorage.getNamespacedKey`: `` `${this.namespace}:${key}` ``. -/
def nsKey (cfg : GlancyConfig) (key : String) : String :=
  cfg.nspace ++ ":" ++ key

/-- JavaScript truthiness of a `number | undefined` (`!item.ttl` is true
for `undefined` and for `0`). -/
def numFalsy : Option ℚ → Bool
  | none => true
  | some t => t = 0

/-- JavaScript `a || b` on `number | undefined` operands, as used in
`ttl || this.defaultTTL`. -/
def jsOrNum (a b : Option ℚ) : Option ℚ :=
  match a with
  | some x => if x = 0 then b else some x
  | none => b

/-- `BaseStorage.isExpired`: `!item.ttl` is never expired, otherwise
`Date.now() > item.timestamp + item.ttl`. -/
def isExpired (now : ℚ) (item : GlancyItem) : Bool :=
  if numFalsy item.ttl then false
  else decide (item.timestamp + item.ttl.getD 0 < now)

/-- `value ?? ({} as T)` from `Glancy.set`: nullish payloads are replaced
by the empty object. -/
def coalesceNullish : JsValue → JsValue
  | .null => .obj []
  | .undef => .obj []
  | v => v

/-- `Glancy.remove`: validate the key, then remove the namespaced entry. -/
def Glancy.remove (cfg : GlancyConfig) (st : Store) (key : String) :
    GlancyResponse Unit × Store :=
  let kv := validateStorageKey key
  if kv.success = false then
    ({ success := false, message := kv.message, data := () }, st)
  else
    ({ success := true, message := "Item removed successfully", data := () },
     lsRemove st (nsKey cfg key))

/-- `Glancy.get` in the base configuration: validate, fetch, reject
envelopes with `undefined` value, lazily evict on expiry (via
`this.remove(key)`), else return the stored value. -/
def Glancy.get (cfg : GlancyConfig) (st : Store) (now : ℚ) (key : String) :
    GlancyResponse (Option JsValue) × Store :=
  let kv := validateStorageKey key
  if kv.success = false then
    ({ success := false, message := kv.message, data := none }, st)
  else
    match lsGet st (nsKey cfg key) with
    | none => ({ success := true, message := "Item not found", data := none }, st)
    | some item =>
      if item.value.isUndef then
        ({ success := false, message := "Invalid item for key " ++ key,
           data := none }, st)
      else if isExpired now item then
        ({ success := true, message := "Item expired", data := none },
         (Glancy.remove cfg st key).2)
      else
        ({ success := true, message := "Item retrieved successfully",
           data := some item.value }, st)

/-- `Glancy.set` in the base configuration: validate key and TTL, build the
envelope `{ value: value ?? {}, timestamp: Date.now(), ttl: ttl || defaultTTL }`
and store it.  The `QuotaExceededError` branch is not representable (the
modelled store is unbounded). -/
def Glancy.set (cfg : GlancyConfig) (st : Store) (now : ℚ) (key : String)
    (v : JsValue) (ttl : Option ℚ) : GlancyResponse Unit × Store :=
  let kv := validateStorageKey key
  if kv.success = false then
    ({ success := false, message := kv.message, data := () }, st)
  else
    let tv := validateTTL ttl
    if tv.success = false then
      ({ success := false, message := tv.message, data := () }, st)
    else
      let item : GlancyItem :=
        { value := coalesceNullish v
          timestamp := now
          ttl := jsOrNum ttl cfg.defaultTTL }
      ({ success := true, message := "Item set successfully", data := () },
       lsSet st (nsKey cfg key) item)

/-- `Glancy.touch` in the base configuration: validate key and TTL, and if
the raw entry exists overwrite its `ttl` and `timestamp` and write it
back.  Note the source performs no expiry check here. -/
def Glancy.touch (cfg : GlancyConfig) (st : Store) (now : ℚ) (key : String)
    (ttl : Option ℚ) : GlancyResponse Bool × Store :=
  let kv := validateStorageKey key
  if kv.success = false then
    ({ success := false, message := kv.message, data := false }, st)
  else
    let tv := validateTTL ttl
    if tv.success = false then
      ({ success := false, message := tv.message, data := false }, st)
    else
      match lsGet st (nsKey cfg key) with
      | none =>
        ({ success := true, message := "Item not found", data := false }, st)
      | some item =>
        let item' : GlancyItem :=
          { item with ttl := jsOrNum ttl cfg.defaultTTL, timestamp := now }
        ({ success := true, message := "TTL updated successfully", data := true },
         lsSet st (nsKey cfg key) item')

/-- `Glancy.getTTL` in the base configuration: validate, and for an
existing entry with truthy `ttl` return
`item.ttl - (Date.now() - item.timestamp)`; the source checks no expiry. -/
def Glancy.getTTL (cfg : GlancyConfig) (st : Store) (now : ℚ) (key : String) :
    GlancyResponse (Option ℚ) × Store :=
  let kv := validateStorageKey key
  if kv.success = false then
    ({ success := false, message := kv.message, data := none }, st)
  else
    match lsGet st (nsKey cfg key) with
    | none => ({ success := true, message := "Item not found", data := none }, st)
    | some item =>
      if numFalsy item.ttl then
        ({ success := true, message := "Item has no TTL", data := none }, st)
      else
        ({ success := true, message := "TTL retrieved successfully",
           data := some (item.ttl.getD 0 - (now - item.timestamp)) }, st)

/-- `Glancy.clear`: remove every physical key that starts with the raw
namespace string (note: not `namespace + ":"`). -/
def Glancy.clear (cfg : GlancyConfig) (st : Store) :
    GlancyResponse Unit × Store :=
  ({ success := true, message := "Storage cleared successfully", data := () },
   st.filter (fun e => ¬ sStartsWith e.1 cfg.nspace))

/-- `Glancy.keys`: physical keys starting with the raw namespace, with the
first occurrence of `namespace + ":"` deleted from each. -/
def Glancy.keys (cfg : GlancyConfig) (st : Store) :
    GlancyResponse (List String) :=
  { success := true
    message := "Keys retrieved successfully"
    data := ((st.map Prod.fst).filter (fun k => sStartsWith k cfg.nspace)).map
      (fun k => jsReplaceFirst k (cfg.nspace ++ ":")) }

/-- JSON string escaping (model of the escaping `JSON.stringify` applies
to string values): quote, backslash, and common control characters. -/
def jsonEscapeChar (c : Char) : String :=
  if c = Char.ofNat 34 then "\\\""
  else if c = Char.ofNat 92 then "\\\\"
  else if c = Char.ofNat 10 then "\\n"
  else if c = Char.ofNat 13 then "\\r"
  else if c = Char.ofNat 9 then "\\t"
  else if c.toNat < 32 then "\\u" ++ (Nat.toDigits 16 c.toNat).asString
  else String.singleton c

/-- JSON escaping of a whole string. -/
def jsonEscape (s : String) : String :=
  s.data.foldl (fun acc c => acc ++ jsonEscapeChar c) ""

/-- Rendering of a JavaScript number in JSON output.  The model renders
integers the way JavaScript does; non-integral rationals (which never
reach `JSON.stringify` through the modelled facade) are rendered as
`num/den`. -/
def ratToString (q : ℚ) : String :=
  if q.den = 1 then toString q.num
  else toString q.num ++ "/" ++ toString q.den

mutual

/-- Model of `JSON.stringify` on a `JsValue` (inside an array slot,
`undefined` serializes as `null`, which is the only place the model can
meet it). -/
def stringifyValue : JsValue → String
  | .null => "null"
  | .undef => "null"
  | .bool b => if b then "true" else "false"
  | .num q => ratToString q
  | .str s => "\"" ++ jsonEscape s ++ "\""
  | .arr l => "[" ++ stringifyArr l ++ "]"
  | .obj l => "\x7b" ++ stringifyObj l ++ "\x7d"

/-- Comma-joined serialization of array elements. -/
def stringifyArr : List JsValue → String
  | [] => ""
  | [v] => stringifyValue v
  | v :: rest => stringifyValue v ++ "," ++ stringifyArr rest

/-- Comma-joined serialization of object fields. -/
def stringifyObj : List (String × JsValue) → String
  | [] => ""
  | [f] => "\"" ++ jsonEscape f.1 ++ "\":" ++ stringifyValue f.2
  | f :: rest =>
    "\"" ++ jsonEscape f.1 ++ "\":" ++ stringifyValue f.2 ++ "," ++
      stringifyObj rest

end

/-- `JSON.stringify` of a stored envelope, with property order
`value, timestamp, ttl` and an absent `ttl` property omitted. -/
def serializeItem (item : GlancyItem) : String :=
  "\x7b\"value\":" ++ stringifyValue item.value ++
    ",\"timestamp\":" ++ ratToString item.timestamp ++
    (match item.ttl with
     | none => ""
     | some t => ",\"ttl\":" ++ ratToString t) ++ "\x7d"

/-- `Glancy.size`: sum of `key.length + value.length` over entries whose
physical key starts with the raw namespace. -/
def Glancy.size (cfg : GlancyConfig) (st : Store) : GlancyResponse Nat :=
  { success := true
    message := "Size calculated successfully"
    data := st.foldl
      (fun acc e =>
        if sStartsWith e.1 cfg.nspace then
          acc + e.1.length + (serializeItem e.2).length
        else acc) 0 }

/-- The per-key loop of `Glancy.getMany`: each key goes through `get`, a
failed response contributes `null`; store mutations (lazy eviction inside
`get`) thread through in key order, matching the synchronous execution of
the base configuration. -/
def getManyEntries (cfg : GlancyConfig) (st : Store) (now : ℚ) :
    List String → List (String × Option JsValue) × Store
  | [] => ([], st)
  | k :: ks =>
    let r := Glancy.get cfg st now k
    let v : Option JsValue := if r.1.success then r.1.data else none
    let rest := getManyEntries cfg r.2 now ks
    ((k, v) :: rest.1, rest.2)

/-- `Glancy.getMany`: the entry list wrapped in an always-successful
response (`Object.fromEntries` is modelled by the entry list itself). -/
def Glancy.getMany (cfg : GlancyConfig) (st : Store) (now : ℚ)
    (keys : List String) :
    GlancyResponse (List (String × Option JsValue)) × Store :=
  let r := getManyEntries cfg st now keys
  ({ success := true, message := "Items retrieved successfully", data := r.1 },
   r.2)

/-- The `forEach` loop of `Glancy.setMany`: every item goes through `set`
in `Object.entries` order; each per-item response is discarded. -/
def setManyLoop (cfg : GlancyConfig) (now : ℚ) (ttl : Option ℚ) :
    Store → List (String × JsValue) → Store
  | st, [] => st
  | st, (k, v) :: rest =>
    setManyLoop cfg now ttl (Glancy.set cfg st now k v ttl).2 rest

/-- `Glancy.setMany`: apply the loop and return success unconditionally —
the async `forEach` callback means no per-item failure can reach the
returned response. -/
def Glancy.setMany (cfg : GlancyConfig) (st : Store) (now : ℚ)
    (items : List (String × JsValue)) (ttl : Option ℚ) :
    GlancyResponse Unit × Store :=
  ({ success := true, message := "Items set successfully", data := () },
   setManyLoop cfg now ttl st items)

/-! ### Basic store lemmas -/

/-- Looking up a key immediately after `setItem` of that key finds the
freshly written item. -/
theorem lsGet_lsSet_self (st : Store) (k : String) (it : GlancyItem) :
    lsGet (lsSet st k it) k = some it := by
  induction st with
  | nil => simp [lsSet, lsGet]
  | cons e rest ih =>
    by_cases h : e.1 = k
    · simp [lsSet, lsGet, h]
    · simp [lsSet, lsGet, h, ih]

/-- Looking up a key immediately after `removeItem` of that key fails. -/
theorem lsGet_lsRemove_self (st : Store) (k : String) :
    lsGet (lsRemove st k) k = none := by
  induction st with
  | nil => rfl
  | cons e rest ih =>
    by_cases h : e.1 = k
    · simpa [lsRemove, lsGet, h] using ih
    · simpa [lsRemove, lsGet, h] using ih

/-- A validated TTL value is a non-negative integer. -/
theorem validateTTL_some_elim {t : ℚ} (h : (validateTTL (some t)).success = true) :
    t.den = 1 ∧ 0 ≤ t := by
  by_cases hc : t.den ≠ 1 ∨ t < 0
  · simp [validateTTL, hc] at h
  · push_neg at hc
    exact ⟨hc.1, hc.2⟩

/-- `ttl || defaultTTL` of two validated optional TTLs is validated. -/
theorem validateTTL_jsOrNum {a b : Option ℚ}
    (ha : (validateTTL a).success = true) (hb : (validateTTL b).success = true) :
    (validateTTL (jsOrNum a b)).success = true := by
  cases a with
  | none => simpa [jsOrNum] using hb
  | some x =>
    by_cases hx : x = 0
    · simpa [jsOrNum, hx] using hb
    · simpa [jsOrNum, hx] using ha

/-- An envelope stamped at the current instant with a validated TTL is not
expired at that same instant. -/
theorem isExpired_fresh (now : ℚ) (v : JsValue) {o : Option ℚ}
    (h : (validateTTL o).success = true) :
    isExpired now { value := v, timestamp := now, ttl := o } = false := by
  cases o with
  | none => rfl
  | some t =>
    have ht := validateTTL_some_elim h
    by_cases h0 : t = 0
    · simp [isExpired, numFalsy, h0]
    · have hlt : ¬ (now + t < now) := by linarith [ht.2]
      simp [isExpired, numFalsy, h0, hlt]

/-! ### C7 — validation rejects bad input before any store access -/

/-- C7: an empty key makes `set`/`touch` fail with the `InvalidKey` message
and leave the store untouched, and a defined TTL that is negative or not
an integer makes them fail with the `InvalidTTL` message and leave the
store untouched; no store entry is read, written, or removed. -/
theorem c7_validation_rejects_before_store_access
    (cfg : GlancyConfig) (st : Store) (now : ℚ) (v : JsValue)
    (ttl : Option ℚ) (t : ℚ) (htd : t.den ≠ 1 ∨ t < 0) :
    (Glancy.set cfg st now "" v ttl =
      ({ success := false, message := "Invalid storage key", data := () }, st)) ∧
    (Glancy.touch cfg st now "" ttl =
      ({ success := false, message := "Invalid storage key", data := false }, st)) ∧
    (∀ key, key ≠ "" →
      Glancy.set cfg st now key v (some t) =
        ({ success := false, message := "Invalid TTL value", data := () }, st) ∧
      Glancy.touch cfg st now key (some t) =
        ({ success := false, message := "Invalid TTL value", data := false }, st)) := by
  refine ⟨rfl, rfl, fun key hk => ⟨?_, ?_⟩⟩ <;>
    simp [Glancy.set, Glancy.touch, validateStorageKey, validateTTL, hk, htd]

/-- Witness for C7 at concrete inputs: `set` with TTL `-1` fails with the
`InvalidTTL` message and an unchanged store. -/
theorem c7_validation_witness :
    Glancy.set ⟨"glancy", none⟩ [] 0 "k" (JsValue.str "x") (some (-1)) =
      ({ success := false, message := "Invalid TTL value", data := () }, []) :=
  ((c7_validation_rejects_before_store_access ⟨"glancy", none⟩ [] 0
      (JsValue.str "x") none (-1) (by norm_num)).2.2 "k" (by decide)).1

/-! ### C10 — nullish payloads are stored as the empty object -/

/-- The nullish-coalescing step leaves non-nullish payloads unchanged. -/
theorem coalesceNullish_eq_self {v : JsValue} (h1 : v ≠ JsValue.null)
    (h2 : v ≠ JsValue.undef) : coalesceNullish v = v := by
  cases v <;> first | rfl | exact absurd rfl h1 | exact absurd rfl h2

/-- C10: `set(key, null)` and `set(key, undefined)` store the empty object
`{}` in the envelope (because of `value ?? {}`), so a subsequent `get`
returns `{}` rather than the nullish payload. -/
theorem c10_nullish_set_get_returns_empty_object
    (cfg : GlancyConfig) (st : Store) (now : ℚ) (key : String)
    (ttl : Option ℚ) (hk : key ≠ "") (ht : (validateTTL ttl).success = true)
    (hd : (validateTTL cfg.defaultTTL).success = true) :
    (Glancy.get cfg (Glancy.set cfg st now key JsValue.null ttl).2 now key).1 =
      { success := true, message := "Item retrieved successfully",
        data := some (JsValue.obj []) } ∧
    (Glancy.get cfg (Glancy.set cfg st now key JsValue.undef ttl).2 now key).1 =
      { success := true, message := "Item retrieved successfully",
        data := some (JsValue.obj []) } := by
  have hjo := validateTTL_jsOrNum ht hd
  constructor <;>
    simp [Glancy.set, Glancy.get, validateStorageKey, hk, ht,
      lsGet_lsSet_self, coalesceNullish, JsValue.isUndef,
      isExpired_fresh now (JsValue.obj []) hjo]

/-- Witness for C10 at concrete inputs. -/
theorem c10_nullish_witness :
    (Glancy.get ⟨"glancy", none⟩
        (Glancy.set ⟨"glancy", none⟩ [] 0 "k" JsValue.null (some 5)).2 0 "k").1 =
      { success := true, message := "Item retrieved successfully",
        data := some (JsValue.obj []) } :=
  (c10_nullish_set_get_returns_empty_object ⟨"glancy", none⟩ [] 0 "k" (some 5)
    (by decide) (by norm_num [validateTTL]) (by decide)).1

/-! ### C1 — set/get round-trip with TTL -/

/-- Counterexample to C1 as stated: (a) for the serializable payload
`null` with TTL `5`, an immediate `get` returns `{}` rather than the
stored payload; (b) for the valid TTL `0` (accepted by `validateTTL`),
`get` long after `0` milliseconds still returns the value instead of a
not-found result, because `ttl || defaultTTL` discards the `0`. -/
theorem c1_roundtrip_counterexample :
    ((Glancy.get ⟨"glancy", none⟩
        (Glancy.set ⟨"glancy", none⟩ [] 0 "k" JsValue.null (some 5)).2
        1 "k").1.data = some (JsValue.obj []) ∧
      JsValue.obj [] ≠ JsValue.null) ∧
    (Glancy.get ⟨"glancy", none⟩
        (Glancy.set ⟨"glancy", none⟩ [] 0 "k" (JsValue.str "x") (some 0)).2
        100 "k").1 =
      { success := true, message := "Item retrieved successfully",
        data := some (JsValue.str "x") } := by
  refine ⟨⟨?_, nofun⟩, ?_⟩ <;>
    norm_num [Glancy.get, Glancy.set, validateStorageKey, validateTTL,
      lsGet, lsSet, nsKey, isExpired, numFalsy, jsOrNum, coalesceNullish,
      JsValue.isUndef, show ¬ (("k" : String) = "") from by decide]

/-- C1 (amended): in the base configuration, for every non-nullish
serializable value, every valid key, and every *positive* integer TTL `t`,
a `get` at `now₂` after `set` at `now₁` returns a success result carrying
the value when `now₂ - now₁ < t`, and a success result with null data once
`now₂ - now₁ > t`.  (As stated the claim fails for nullish payloads —
stored as `{}` — and for the valid TTL `0`, which `ttl || defaultTTL`
replaces by the default.) -/
theorem c1_set_get_roundtrip_ttl
    (cfg : GlancyConfig) (st : Store) (now₁ now₂ : ℚ) (key : String)
    (v : JsValue) (t : ℚ) (hk : key ≠ "") (hv1 : v ≠ JsValue.null)
    (hv2 : v ≠ JsValue.undef) (hvu : v.isUndef = false)
    (hden : t.den = 1) (hpos : 0 < t) :
    (now₂ - now₁ < t →
      (Glancy.get cfg (Glancy.set cfg st now₁ key v (some t)).2 now₂ key).1 =
        { success := true, message := "Item retrieved successfully",
          data := some v }) ∧
    (t < now₂ - now₁ →
      (Glancy.get cfg (Glancy.set cfg st now₁ key v (some t)).2 now₂ key).1 =
        { success := true, message := "Item expired", data := none }) := by
  have hnneg : ¬ t < 0 := by linarith
  have ht : (validateTTL (some t)).success = true := by
    simp [validateTTL, hden, hnneg]
  have ht0 : ¬ t = 0 := by linarith
  have hstore : (Glancy.set cfg st now₁ key v (some t)).2 =
      lsSet st (nsKey cfg key) ⟨v, now₁, some t⟩ := by
    simp [Glancy.set, validateStorageKey, hk, ht, jsOrNum, ht0,
      coalesceNullish_eq_self hv1 hv2]
  constructor
  · intro hlt
    have hexp : isExpired now₂ (⟨v, now₁, some t⟩ : GlancyItem) = false := by
      have : ¬ (now₁ + t < now₂) := by linarith
      simp [isExpired, numFalsy, ht0, this]
    simp [Glancy.get, validateStorageKey, hk, hstore, lsGet_lsSet_self,
      hvu, hexp]
  · intro hlt
    have hexp : isExpired now₂ (⟨v, now₁, some t⟩ : GlancyItem) = true := by
      have : now₁ + t < now₂ := by linarith
      simp [isExpired, numFalsy, ht0, this]
    simp [Glancy.get, validateStorageKey, hk, hstore, lsGet_lsSet_self,
      hvu, hexp]

/-- Witness for the amended C1 at concrete inputs: value `"x"` set at time
`0` with TTL `5` is still returned at time `3`. -/
theorem c1_set_get_roundtrip_witness :
    (Glancy.get ⟨"glancy", none⟩
        (Glancy.set ⟨"glancy", none⟩ [] 0 "k" (JsValue.str "x") (some 5)).2
        3 "k").1 =
      { success := true, message := "Item retrieved successfully",
        data := some (JsValue.str "x") } :=
  (c1_set_get_roundtrip_ttl ⟨"glancy", none⟩ [] 0 3 "k" (JsValue.str "x") 5
    (by decide) nofun nofun rfl rfl (by norm_num)).1 (by norm_num)

/-! ### C3 — lazy eviction on reads, and what `touch` actually does -/

/-- Counterexample to C3 as stated: with the entry `glancy:k` holding
`{value:"v", timestamp:0, ttl:5}` at time `100` (expired), `touch`
returns success with data `true` (the claim demands `false`), rewrites
the entry with a fresh timestamp — reviving it instead of deleting it —
and with `ttl: 0` present, `get` at time `100` still returns the value
(`!item.ttl` treats a zero TTL as "no TTL"). -/
theorem c3_lazy_eviction_counterexample :
    ((Glancy.touch ⟨"glancy", none⟩
        [("glancy:k", ⟨JsValue.str "v", 0, some 5⟩)] 100 "k" (some 7)).1.data
      = true) ∧
    (lsGet (Glancy.touch ⟨"glancy", none⟩
        [("glancy:k", ⟨JsValue.str "v", 0, some 5⟩)] 100 "k" (some 7)).2
        "glancy:k" = some ⟨JsValue.str "v", 100, some 7⟩) ∧
    ((Glancy.get ⟨"glancy", none⟩
        [("glancy:k", ⟨JsValue.str "v", 0, some 0⟩)] 100 "k").1.data
      = some (JsValue.str "v")) := by
  refine ⟨?_, ?_, ?_⟩ <;>
    norm_num [Glancy.touch, Glancy.get, validateStorageKey, validateTTL,
      lsGet, lsSet, nsKey, isExpired, numFalsy, jsOrNum,
      JsValue.isUndef, show ¬ (("k" : String) = "") from by decide,
      show ("glancy" ++ ":" ++ "k" : String) = "glancy:k" from by decide]

/-- C3 (amended): `get` performs lazy eviction — whenever the stored item
is expired (`ttl` present and nonzero, `now - timestamp > ttl`), `get`
returns success with null data and physically deletes the entry before
returning.  `touch`, however, performs no expiry check: on any present
entry (expired or not) it overwrites `ttl` and `timestamp` (reviving an
expired item) and returns success with data `true`. -/
theorem c3_lazy_eviction_amended
    (cfg : GlancyConfig) (st : Store) (now : ℚ) (key : String)
    (item : GlancyItem) (ttl : Option ℚ) (hk : key ≠ "")
    (hfound : lsGet st (nsKey cfg key) = some item)
    (hundef : item.value.isUndef = false) :
    (isExpired now item = true →
      (Glancy.get cfg st now key).1 =
        { success := true, message := "Item expired", data := none } ∧
      (Glancy.get cfg st now key).2 = lsRemove st (nsKey cfg key) ∧
      lsGet (Glancy.get cfg st now key).2 (nsKey cfg key) = none) ∧
    ((validateTTL ttl).success = true →
      (Glancy.touch cfg st now key ttl).1 =
        { success := true, message := "TTL updated successfully", data := true } ∧
      (Glancy.touch cfg st now key ttl).2 =
        lsSet st (nsKey cfg key)
          { item with ttl := jsOrNum ttl cfg.defaultTTL, timestamp := now }) := by
  constructor
  · intro hexp
    refine ⟨?_, ?_, ?_⟩ <;>
      simp [Glancy.get, Glancy.remove, validateStorageKey, hk, hfound,
        hundef, hexp, lsGet_lsRemove_self]
  · intro htv
    constructor <;>
      simp [Glancy.touch, validateStorageKey, hk, htv, hfound]

/-- Witness for the amended C3 at concrete inputs: the expired entry is
gone from the store right after the `get` that observed the expiry. -/
theorem c3_lazy_eviction_witness :
    lsGet (Glancy.get ⟨"glancy", none⟩
        [("glancy:k", ⟨JsValue.str "v", 0, some 5⟩)] 100 "k").2
      (nsKey ⟨"glancy", none⟩ "k") = none :=
  ((c3_lazy_eviction_amended ⟨"glancy", none⟩
      [("glancy:k", ⟨JsValue.str "v", 0, some 5⟩)] 100 "k"
      ⟨JsValue.str "v", 0, some 5⟩ none (by decide)
      (by norm_num [lsGet, nsKey,
        show ("glancy" ++ ":" ++ "k" : String) = "glancy:k" from by decide])
      rfl).1
    (by norm_num [isExpired, numFalsy])).2.2

/-! ### C6 — the getTTL contract -/

/-- Counterexample to C6 as stated: for the entry `{timestamp:0, ttl:5}`
read at time `100` (expired), `getTTL` returns success with data `-95`
(a negative number), not null as the claim requires for expired items. -/
theorem c6_getTTL_counterexample :
    (Glancy.getTTL ⟨"glancy", none⟩
        [("glancy:k", ⟨JsValue.str "v", 0, some 5⟩)] 100 "k").1.data
      = some (-95 : ℚ) ∧
    some (-95 : ℚ) ≠ (none : Option ℚ) := by
  refine ⟨?_, nofun⟩
  norm_num [Glancy.getTTL, validateStorageKey, lsGet, nsKey, numFalsy,
    show ¬ (("k" : String) = "") from by decide,
    show ("glancy" ++ ":" ++ "k" : String) = "glancy:k" from by decide]

/-- C6 (amended): `getTTL` returns success with null data when the entry
is absent or its `ttl` is absent or zero; when `ttl = t ≠ 0` is present it
returns success with data `t - (now - timestamp)` — with no expiry check,
so the result is negative for an expired item — and that value is
non-negative whenever the item is not expired. -/
theorem c6_getTTL_contract
    (cfg : GlancyConfig) (st : Store) (now : ℚ) (key : String)
    (hk : key ≠ "") :
    (lsGet st (nsKey cfg key) = none →
      (Glancy.getTTL cfg st now key).1 =
        { success := true, message := "Item not found", data := none }) ∧
    (∀ item, lsGet st (nsKey cfg key) = some item →
      (numFalsy item.ttl = true →
        (Glancy.getTTL cfg st now key).1 =
          { success := true, message := "Item has no TTL", data := none }) ∧
      (∀ t, item.ttl = some t → ¬ t = 0 →
        (Glancy.getTTL cfg st now key).1 =
          { success := true, message := "TTL retrieved successfully",
            data := some (t - (now - item.timestamp)) } ∧
        (isExpired now item = false → 0 ≤ t - (now - item.timestamp)))) := by
  constructor
  · intro habs
    simp [Glancy.getTTL, validateStorageKey, hk, habs]
  · intro item hfound
    constructor
    · intro hfalsy
      simp [Glancy.getTTL, validateStorageKey, hk, hfound, hfalsy]
    · intro t httl ht0
      have hfalsy : numFalsy item.ttl = false := by simp [numFalsy, httl, ht0]
      constructor
      · simp [Glancy.getTTL, validateStorageKey, hk, hfound, hfalsy, httl,
          numFalsy, ht0]
      · intro hnexp
        have : ¬ (item.timestamp + t < now) := by
          simpa [isExpired, numFalsy, httl, ht0] using hnexp
        linarith

/-- Witness for the amended C6 at concrete inputs: a live entry with
`ttl = 5` written at time `0` reports `3` remaining at time `2`. -/
theorem c6_getTTL_witness :
    (Glancy.getTTL ⟨"glancy", none⟩
        [("glancy:k", ⟨JsValue.str "v", 0, some 5⟩)] 2 "k").1 =
      { success := true, message := "TTL retrieved successfully",
        data := some ((5 : ℚ) - ((2 : ℚ) - (0 : ℚ))) } :=
  (((c6_getTTL_contract ⟨"glancy", none⟩
      [("glancy:k", ⟨JsValue.str "v", 0, some 5⟩)] 2 "k" (by decide)).2
      ⟨JsValue.str "v", 0, some 5⟩
      (by norm_num [lsGet, nsKey,
        show ("glancy" ++ ":" ++ "k" : String) = "glancy:k" from by decide])).2
    5 rfl (by norm_num)).1

/-! ### C8 — getMany isolates per-key failures -/

/-- The entry list produced by `getMany` lists exactly the requested keys,
in order. -/
theorem getManyEntries_map_fst (cfg : GlancyConfig) (now : ℚ) :
    ∀ (keys : List String) (st : Store),
      ((getManyEntries cfg st now keys).1).map Prod.fst = keys := by
  intro keys
  induction keys with
  | nil => intro st; rfl
  | cons k ks ih => intro st; simp [getManyEntries, ih]

/-- The `getMany` loop over an appended key list runs the first list and
then the second on the resulting store. -/
theorem getManyEntries_append (cfg : GlancyConfig) (now : ℚ) :
    ∀ (ks₁ ks₂ : List String) (st : Store),
      getManyEntries cfg st now (ks₁ ++ ks₂) =
        ((getManyEntries cfg st now ks₁).1 ++
          (getManyEntries cfg (getManyEntries cfg st now ks₁).2 now ks₂).1,
         (getManyEntries cfg (getManyEntries cfg st now ks₁).2 now ks₂).2) := by
  intro ks₁
  induction ks₁ with
  | nil => intro ks₂ st; simp [getManyEntries]
  | cons k ks ih => intro ks₂ st; simp [getManyEntries, ih]

/-- C8: `getMany` always returns a success result whose entries map every
requested key (in order) to a value-or-null, and a key that fails
validation (the empty key) contributes exactly a null binding for itself:
it neither aborts the batch nor perturbs the store threading or the
results of the surrounding keys. -/
theorem c8_getMany_isolates_failures
    (cfg : GlancyConfig) (st : Store) (now : ℚ) :
    (∀ keys : List String,
      (Glancy.getMany cfg st now keys).1.success = true ∧
      ((Glancy.getMany cfg st now keys).1.data).map Prod.fst = keys) ∧
    (∀ ks₁ ks₂ : List String,
      getManyEntries cfg st now (ks₁ ++ "" :: ks₂) =
        ((getManyEntries cfg st now ks₁).1 ++ ("", none) ::
          (getManyEntries cfg (getManyEntries cfg st now ks₁).2 now ks₂).1,
         (getManyEntries cfg (getManyEntries cfg st now ks₁).2 now ks₂).2)) := by
  constructor
  · intro keys
    exact ⟨rfl, getManyEntries_map_fst cfg now keys st⟩
  · intro ks₁ ks₂
    rw [getManyEntries_append cfg now ks₁ ("" :: ks₂) st]
    simp [getManyEntries, Glancy.get, validateStorageKey]

/-! ### C9 — setMany never surfaces failures -/

/-- Counterexample to C9 as stated: a batch whose only item has an invalid
(empty) key — so its `set` fails — still makes `setMany` return a success
result, not the failure result the claim requires. -/
theorem c9_setMany_counterexample :
    (Glancy.setMany ⟨"glancy", none⟩ [] 0 [("", JsValue.str "x")] none).1.success
      = true ∧
    (Glancy.set ⟨"glancy", none⟩ [] 0 "" (JsValue.str "x") none).1.success
      = false :=
  ⟨rfl, rfl⟩

/-- An item with an invalid (empty) key is skipped by the `setMany` loop
without affecting the other items. -/
theorem setManyLoop_skips_invalid_key (cfg : GlancyConfig) (now : ℚ)
    (ttl : Option ℚ) (v : JsValue) (post : List (String × JsValue)) :
    ∀ (pre : List (String × JsValue)) (st : Store),
      setManyLoop cfg now ttl st (pre ++ ("", v) :: post) =
        setManyLoop cfg now ttl st (pre ++ post) := by
  intro pre
  induction pre with
  | nil =>
    intro st
    simp [setManyLoop, Glancy.set, validateStorageKey]
  | cons p ps ih =>
    intro st
    simp [setManyLoop, ih]

/-- C9 (amended): `setMany` always returns a success result — per-item
failures are swallowed by the async `forEach` callback, never surfaced —
while items that fail (e.g. an invalid key) are simply not applied and
the other items in the batch are applied as usual (the batch is not
atomic). -/
theorem c9_setMany_swallows_failures
    (cfg : GlancyConfig) (st : Store) (now : ℚ) (ttl : Option ℚ) :
    (∀ items : List (String × JsValue),
      (Glancy.setMany cfg st now items ttl).1 =
        { success := true, message := "Items set successfully", data := () }) ∧
    (∀ (pre post : List (String × JsValue)) (v : JsValue),
      (Glancy.setMany cfg st now (pre ++ ("", v) :: post) ttl).2 =
        (Glancy.setMany cfg st now (pre ++ post) ttl).2) := by
  constructor
  · intro items; rfl
  · intro pre post v
    simpa [Glancy.setMany] using
      setManyLoop_skips_invalid_key cfg now ttl v post pre st

/-! ### C4 — namespace isolation -/

/-- Entries of the physical store that belong to (were written by) the
instance with namespace `ns`: those whose physical key has the form
`ns ++ ":" ++ logicalKey`. -/
def nsEntries (ns : String) (st : Store) : Store :=
  st.filter (fun e => sStartsWith e.1 (ns ++ ":"))

/-- The physical store with the entries of namespace `ns` erased. -/
def eraseNsEntries (ns : String) (st : Store) : Store :=
  st.filter (fun e => !sStartsWith e.1 (ns ++ ":"))

/-- When neither namespace is a string prefix of the other, no string can
have both `a` and `b ++ ":"` as prefixes. -/
theorem not_both_ns_prefix {a b : String}
    (hab : ¬ a.data <+: b.data) (hba : ¬ b.data <+: a.data) (K : List Char) :
    ¬ (a.data <+: K ∧ (b ++ ":").data <+: K) := by
  rintro ⟨ha, hb⟩
  rcases le_total a.data.length (b ++ ":").data.length with hle | hle
  · have hcomp : a.data <+: (b ++ ":").data :=
      List.prefix_of_prefix_length_le ha hb hle
    have hlen : (b ++ ":").data.length = b.data.length + 1 := by
      simp [String.data_append]
    rcases lt_or_eq_of_le hcomp.length_le with hlt | heq
    · have hle2 : a.data.length ≤ b.data.length := by omega
      have hbpre : b.data <+: (b ++ ":").data := by
        rw [String.data_append]; exact List.prefix_append b.data _
      exact hab (List.prefix_of_prefix_length_le hcomp hbpre hle2)
    · have heq2 : a.data = (b ++ ":").data := hcomp.eq_of_length heq
      have hbpre : b.data <+: (b ++ ":").data := by
        rw [String.data_append]; exact List.prefix_append b.data _
      exact hba (heq2 ▸ hbpre)
  · have hcomp : (b ++ ":").data <+: a.data :=
      List.prefix_of_prefix_length_le hb ha hle
    have hbpre : b.data <+: (b ++ ":").data := by
      rw [String.data_append]; exact List.prefix_append b.data _
    exact hba (hbpre.trans hcomp)

/-- A physical key of namespace `b` does not pass the raw
`startsWith(namespace)` filter of an incomparable namespace `a`. -/
theorem sStartsWith_other_ns_false {a b : String}
    (hab : ¬ a.data <+: b.data) (hba : ¬ b.data <+: a.data) {K : String}
    (hK : sStartsWith K (b ++ ":") = true) : sStartsWith K a = false := by
  by_contra h
  have ha : a.data <+: K.data := by
    have := (Bool.not_eq_false _).mp h
    simpa [sStartsWith] using this
  have hb : (b ++ ":").data <+: K.data := by simpa [sStartsWith] using hK
  exact not_both_ns_prefix hab hba K.data ⟨ha, hb⟩

/-- A physical key written by namespace `a` is not of namespace `b`'s
form, for incomparable namespaces. -/
theorem nsForm_not_other {a b : String}
    (hab : ¬ a.data <+: b.data) (hba : ¬ b.data <+: a.data) (k : String) :
    sStartsWith (a ++ ":" ++ k) (b ++ ":") = false := by
  by_contra h
  have hb : (b ++ ":").data <+: (a ++ ":" ++ k).data := by
    have := (Bool.not_eq_false _).mp h
    simpa [sStartsWith] using this
  have ha : a.data <+: (a ++ ":" ++ k).data := by
    rw [String.data_append, String.data_append]
    exact (List.prefix_append a.data _).trans (List.prefix_append _ k.data)
  exact not_both_ns_prefix hab hba _ ⟨ha, hb⟩

/-- Filtering by a conjunction whose second conjunct is implied by the
first is filtering by the first conjunct alone. -/
theorem filter_and_eq_left {α : Type} {p q : α → Bool}
    (h : ∀ x, p x = true → q x = true) :
    ∀ l : List α, l.filter (fun x => p x && q x) = l.filter p := by
  intro l
  induction l with
  | nil => rfl
  | cons x xs ih =>
    by_cases hp : p x = true
    · simp [List.filter_cons, hp, h x hp, ih]
    · simp only [Bool.not_eq_true] at hp
      simp [List.filter_cons, hp, ih]

/-- Looking up a key that is not of namespace `b`'s form is unaffected by
erasing namespace `b`'s entries. -/
theorem lsGet_eraseNsEntries {b k : String}
    (hk : sStartsWith k (b ++ ":") = false) (st : Store) :
    lsGet (eraseNsEntries b st) k = lsGet st k := by
  induction st with
  | nil => rfl
  | cons e rest ih =>
    by_cases hek : e.1 = k
    · have he : sStartsWith e.1 (b ++ ":") = false := by rw [hek]; exact hk
      simp [eraseNsEntries, List.filter_cons, he, lsGet, hek, hk]
    · by_cases he : sStartsWith e.1 (b ++ ":") = true
      · have h1 : eraseNsEntries b (e :: rest) = eraseNsEntries b rest := by
          simp [eraseNsEntries, List.filter_cons, he]
        rw [h1, ih]
        simp [lsGet, hek]
      · simp only [Bool.not_eq_true] at he
        have h1 : eraseNsEntries b (e :: rest) = e :: eraseNsEntries b rest := by
          simp [eraseNsEntries, List.filter_cons, he]
        rw [h1]
        simp [lsGet, hek, ih]

/-- Writing under a key that is not of namespace `b`'s form preserves
namespace `b`'s entries. -/
theorem nsEntries_lsSet {b k : String}
    (hk : sStartsWith k (b ++ ":") = false) (st : Store) (it : GlancyItem) :
    nsEntries b (lsSet st k it) = nsEntries b st := by
  induction st with
  | nil => simp [lsSet, nsEntries, hk]
  | cons e rest ih =>
    simp only [nsEntries] at ih ⊢
    by_cases hek : e.1 = k
    · have he : sStartsWith e.1 (b ++ ":") = false := by rw [hek]; exact hk
      simp [lsSet, hek, List.filter_cons, he, hk]
    · have h1 : lsSet (e :: rest) k it = e :: lsSet rest k it := by
        simp [lsSet, hek]
      rw [h1]
      by_cases he : sStartsWith e.1 (b ++ ":") = true
      · simp only [List.filter_cons, he, if_pos]
        rw [ih]
      · simp only [Bool.not_eq_true] at he
        simp only [List.filter_cons, he]
        simp only [Bool.false_eq_true, if_false]
        exact ih

/-- Removing a key that is not of namespace `b`'s form preserves
namespace `b`'s entries. -/
theorem nsEntries_lsRemove {b k : String}
    (hk : sStartsWith k (b ++ ":") = false) (st : Store) :
    nsEntries b (lsRemove st k) = nsEntries b st := by
  have h : ∀ e : String × GlancyItem,
      sStartsWith e.1 (b ++ ":") = true → (!(e.1 == k)) = true := by
    intro e he
    have : ¬ (e.1 = k) := by
      intro hek; rw [hek] at he; rw [he] at hk; cases hk
    simp [this]
  calc nsEntries b (lsRemove st k)
      = st.filter (fun e => sStartsWith e.1 (b ++ ":") && !(e.1 == k)) := by
        simp [nsEntries, lsRemove, List.filter_filter]
    _ = nsEntries b st := filter_and_eq_left h st

/-- Filtering the store by any predicate that keeps every entry of
namespace `b`'s form preserves namespace `b`'s entries. -/
theorem nsEntries_filter {b : String} {p : String × GlancyItem → Bool}
    (hp : ∀ e, sStartsWith e.1 (b ++ ":") = true → p e = true) (st : Store) :
    nsEntries b (st.filter p) = nsEntries b st := by
  calc nsEntries b (st.filter p)
      = st.filter (fun e => sStartsWith e.1 (b ++ ":") && p e) := by
        simp [nsEntries, List.filter_filter]
    _ = nsEntries b st := filter_and_eq_left hp st

/-- Mapping `Prod.fst` over a store filtered by a key predicate filters
the key list by that predicate. -/
theorem map_fst_filter_fst (p : String → Bool) (st : Store) :
    (st.filter (fun e => p e.1)).map Prod.fst = (st.map Prod.fst).filter p := by
  induction st with
  | nil => rfl
  | cons e rest ih =>
    by_cases hp : p e.1 = true
    · simp [List.filter_cons, hp, ih]
    · simp only [Bool.not_eq_true] at hp
      simp [List.filter_cons, hp, ih]

/-- The size fold ignores entries of an incomparable namespace `b`, so
erasing them does not change the result. -/
theorem foldl_size_eraseNsEntries {a b : String}
    (hab : ¬ a.data <+: b.data) (hba : ¬ b.data <+: a.data) :
    ∀ (st : Store) (acc : Nat),
      (eraseNsEntries b st).foldl
        (fun acc e => if sStartsWith e.1 a then
          acc + e.1.length + (serializeItem e.2).length else acc) acc =
      st.foldl
        (fun acc e => if sStartsWith e.1 a then
          acc + e.1.length + (serializeItem e.2).length else acc) acc := by
  intro st
  induction st with
  | nil => intro acc; rfl
  | cons e rest ih =>
    intro acc
    by_cases hB : sStartsWith e.1 (b ++ ":") = true
    · have hA : sStartsWith e.1 a = false := sStartsWith_other_ns_false hab hba hB
      have h1 : eraseNsEntries b (e :: rest) = eraseNsEntries b rest := by
        simp [eraseNsEntries, List.filter_cons, hB]
      rw [h1, ih]
      simp [List.foldl_cons, hA]
    · simp only [Bool.not_eq_true] at hB
      have h1 : eraseNsEntries b (e :: rest) = e :: eraseNsEntries b rest := by
        simp [eraseNsEntries, List.filter_cons, hB]
      rw [h1]
      simp only [List.foldl_cons]
      exact ih _

/-- Counterexample to C4 as stated for the namespaces `"a"` and `"ab"` the
claim itself offers: instance `"ab"` stores logical key `"k"`; its `get`
sees the value; but `clear()` on instance `"a"` — whose filter is
`startsWith("a")`, not `startsWith("a:")` — deletes instance `"ab"`'s
entry, after which instance `"ab"`'s `get` finds nothing. -/
theorem c4_namespace_isolation_counterexample :
    ((Glancy.get ⟨"ab", none⟩
        (Glancy.set ⟨"ab", none⟩ [] 0 "k" (JsValue.str "x") none).2 0 "k").1.data
      = some (JsValue.str "x")) ∧
    ((Glancy.clear ⟨"a", none⟩
        (Glancy.set ⟨"ab", none⟩ [] 0 "k" (JsValue.str "x") none).2).2 = []) ∧
    ((Glancy.get ⟨"ab", none⟩
        (Glancy.clear ⟨"a", none⟩
          (Glancy.set ⟨"ab", none⟩ [] 0 "k" (JsValue.str "x") none).2).2
        0 "k").1.data = none) := by
  refine ⟨?_, ?_, ?_⟩ <;>
    norm_num [Glancy.get, Glancy.set, Glancy.clear, validateStorageKey,
      validateTTL, lsGet, lsSet, nsKey, isExpired, numFalsy, jsOrNum,
      coalesceNullish, JsValue.isUndef, sStartsWith, List.filter,
      show ¬ (("k" : String) = "") from by decide]

/-- C4 (amended): namespace isolation holds for two facade instances
whose namespace strings are incomparable under the string-prefix order
(neither is a prefix of the other; the claim's own example `"a"`/`"ab"`
violates this and leaks).  Then no operation of the instance with
namespace `a` — `set`, `remove`, `clear`, `get` (which can evict), `keys`,
`size` — modifies any entry written by the instance with namespace `b`,
and the read operations `get`, `keys`, `size` return the same results
whether or not namespace `b`'s entries are present in the shared store. -/
theorem c4_namespace_isolation
    (a b : String) (dta : Option ℚ)
    (hab : ¬ a.data <+: b.data) (hba : ¬ b.data <+: a.data)
    (st : Store) (now : ℚ) (key : String) (v : JsValue) (ttl : Option ℚ) :
    (nsEntries b (Glancy.set ⟨a, dta⟩ st now key v ttl).2 = nsEntries b st) ∧
    (nsEntries b (Glancy.remove ⟨a, dta⟩ st key).2 = nsEntries b st) ∧
    (nsEntries b (Glancy.clear ⟨a, dta⟩ st).2 = nsEntries b st) ∧
    (nsEntries b (Glancy.get ⟨a, dta⟩ st now key).2 = nsEntries b st) ∧
    ((Glancy.get ⟨a, dta⟩ (eraseNsEntries b st) now key).1 =
      (Glancy.get ⟨a, dta⟩ st now key).1) ∧
    (Glancy.keys ⟨a, dta⟩ (eraseNsEntries b st) = Glancy.keys ⟨a, dta⟩ st) ∧
    (Glancy.size ⟨a, dta⟩ (eraseNsEntries b st) = Glancy.size ⟨a, dta⟩ st) := by
  have hform : sStartsWith (a ++ ":" ++ key) (b ++ ":") = false :=
    nsForm_not_other hab hba key
  have hformKey : sStartsWith (nsKey ⟨a, dta⟩ key) (b ++ ":") = false := by
    simpa [nsKey] using hform
  have hq : ∀ K : String, sStartsWith K a = true →
      (!sStartsWith K (b ++ ":")) = true := by
    intro K hK
    by_cases hB : sStartsWith K (b ++ ":") = true
    · rw [sStartsWith_other_ns_false hab hba hB] at hK; cases hK
    · simp only [Bool.not_eq_true] at hB; simp [hB]
  refine ⟨?_, ?_, ?_, ?_, ?_, ?_, ?_⟩
  · -- set preserves b's entries
    by_cases hk : key = ""
    · simp [Glancy.set, validateStorageKey, hk]
    · by_cases ht : (validateTTL ttl).success = true
      · simp only [Glancy.set, validateStorageKey, hk, ht]
        simpa [validateStorageKey, hk, ht, nsKey] using
          nsEntries_lsSet hformKey st
            ⟨coalesceNullish v, now, jsOrNum ttl dta⟩
      · have ht' : (validateTTL ttl).success = false := by
          cases h2 : (validateTTL ttl).success
          · rfl
          · exact absurd h2 ht
        simp [Glancy.set, validateStorageKey, hk, ht']
  · -- remove preserves b's entries
    by_cases hk : key = ""
    · simp [Glancy.remove, validateStorageKey, hk]
    · simpa [Glancy.remove, validateStorageKey, hk] using
        nsEntries_lsRemove hformKey st
  · -- clear preserves b's entries
    simpa [Glancy.clear] using
      nsEntries_filter
        (fun e he => by rw [sStartsWith_other_ns_false hab hba he]; rfl) st
  · -- get (with its lazy eviction) preserves b's entries
    by_cases hk : key = ""
    · simp [Glancy.get, validateStorageKey, hk]
    · rcases hfound : lsGet st (nsKey ⟨a, dta⟩ key) with _ | item
      · simp [Glancy.get, validateStorageKey, hk, hfound]
      · by_cases hu : item.value.isUndef = true
        · simp [Glancy.get, validateStorageKey, hk, hfound, hu]
        · by_cases hex : isExpired now item = true
          · simpa [Glancy.get, Glancy.remove, validateStorageKey, hk,
              hfound, hu, hex] using nsEntries_lsRemove hformKey st
          · simp [Glancy.get, validateStorageKey, hk, hfound, hu, hex]
  · -- get's result is blind to b's entries
    by_cases hk : key = ""
    · simp [Glancy.get, validateStorageKey, hk]
    · have hlsg : lsGet (eraseNsEntries b st) (nsKey ⟨a, dta⟩ key) =
          lsGet st (nsKey ⟨a, dta⟩ key) :=
        lsGet_eraseNsEntries hformKey st
      rcases hfound : lsGet st (nsKey ⟨a, dta⟩ key) with _ | item
      · simp [Glancy.get, validateStorageKey, hk, hfound, hlsg]
      · by_cases hu : item.value.isUndef = true
        · simp [Glancy.get, validateStorageKey, hk, hfound, hlsg, hu]
        · by_cases hex : isExpired now item = true
          · simp [Glancy.get, validateStorageKey, hk, hfound, hlsg, hu, hex]
          · simp [Glancy.get, validateStorageKey, hk, hfound, hlsg, hu, hex]
  · -- keys is blind to b's entries
    have hdata :
        (((eraseNsEntries b st).map Prod.fst).filter
            (fun K => sStartsWith K a)) =
          ((st.map Prod.fst).filter (fun K => sStartsWith K a)) := by
      rw [show eraseNsEntries b st =
            st.filter (fun e => !sStartsWith e.1 (b ++ ":")) from rfl,
        map_fst_filter_fst (fun K => !sStartsWith K (b ++ ":")) st,
        List.filter_filter]
      exact filter_and_eq_left hq (st.map Prod.fst)
    simp [Glancy.keys, hdata]
  · -- size is blind to b's entries
    simp [Glancy.size, foldl_size_eraseNsEntries hab hba st 0]

/-- Witness for the amended C4 at concrete inputs: with the incomparable
namespaces `"a"` and `"b"`, a `clear()` on the `"a"` instance leaves the
`"b"` instance's entries intact. -/
theorem c4_namespace_isolation_witness :
    nsEntries "b"
        (Glancy.clear ⟨"a", none⟩ [("b:k", ⟨JsValue.str "x", 0, none⟩)]).2 =
      nsEntries "b" [("b:k", ⟨JsValue.str "x", 0, none⟩)] :=
  (c4_namespace_isolation "a" "b" none (by decide) (by decide)
    [("b:k", ⟨JsValue.str "x", 0, none⟩)] 0 "k" (JsValue.str "x") none).2.2.1

/-!
### LZWCompressor embedding

Strings handled by the compressor are JavaScript strings, i.e. sequences
of UTF-16 code units, modelled as `List Nat` (Lean's `String` cannot hold
the lone surrogates JavaScript strings may contain).  The dictionary
`Map<string, number>` is an insertion-ordered association list, matching
JavaScript `Map` iteration order.
-/

/-- The compressor's constructor state: `dictionarySize` from
`CompressionOptions`. -/
structure LZWCompressor where
  dictionarySize : Nat

/-- The code units of the text `"undefined"`, produced when JavaScript
coerces the value `undefined` into a string concatenation (reading an
array hole or `s[0]` of an empty string). -/
def undefinedUnits : List Nat := [117, 110, 100, 101, 102, 105, 110, 100]

/-- `Map.prototype.get` on the dictionary. -/
def dictGet : List (List Nat × Nat) → List Nat → Option Nat
  | [], _ => none
  | e :: rest, k => if e.1 = k then some e.2 else dictGet rest k

/-- `Map.prototype.set`: update in place, else append (JavaScript `Map`
insertion order). -/
def dictSet : List (List Nat × Nat) → List Nat → Nat → List (List Nat × Nat)
  | [], k, v => [(k, v)]
  | e :: rest, k, v => if e.1 = k then (k, v) :: rest else e :: dictSet rest k v

/-- The seed dictionary: codes 0–255 for the single code units 0–255. -/
def seedDict : List (List Nat × Nat) :=
  (List.range 256).map (fun i => ([i], i))

/-- `patterns.set(pattern, (patterns.get(pattern) || 0) + 1)`: bump a
count, keeping the first-insertion position of the key. -/
def bumpCount : List (List Nat × Nat) → List Nat → List (List Nat × Nat)
  | [], k => [(k, 1)]
  | e :: rest, k =>
    if e.1 = k then (k, e.2 + 1) :: rest else e :: bumpCount rest k

/-- Stable insertion of an element into a count-descending list: the
element goes before every strictly smaller count and after earlier
elements of equal count processed later (see `sortByCountDesc`). -/
def insertByCountDesc (x : List Nat × Nat) :
    List (List Nat × Nat) → List (List Nat × Nat)
  | [] => [x]
  | y :: rest =>
    if y.2 ≤ x.2 then x :: y :: rest else y :: insertByCountDesc x rest

/-- Stable sort by count, descending: the unique output of the
(spec-mandated stable) `Array.prototype.sort` under the comparator
`(a, b) => b[1] - a[1]`. -/
def sortByCountDesc : List (List Nat × Nat) → List (List Nat × Nat)
  | [] => []
  | x :: rest => insertByCountDesc x (sortByCountDesc rest)

/-- The sliding window `for (i = 0; i < buffer.length - 1; i++)` over
adjacent pairs of the buffer. -/
def adjacentPairs : List Nat → List (Nat × Nat)
  | a :: b :: rest => (a, b) :: adjacentPairs (b :: rest)
  | _ => []

/-- `LZWCompressor.analyzePatterns`: count the 2-code-unit patterns
`String.fromCharCode(buffer[i], buffer[i+1])` (`fromCharCode` truncates
each argument to 16 bits) and sort by frequency, descending. -/
def analyzePatterns (buffer : List Nat) : List (List Nat × Nat) :=
  sortByCountDesc
    ((adjacentPairs buffer).foldl
      (fun m p => bumpCount m [p.1 % 65536, p.2 % 65536]) [])

/-- `LZWCompressor.rebuildDictionary`: reseed with 0–255, then re-add the
most frequent patterns while the (local) `dictSize` is below the cap. -/
def rebuildDictionary (dsz : Nat) (buffer : List Nat) :
    List (List Nat × Nat) :=
  ((analyzePatterns buffer).foldl
    (fun dn p => if dn.2 < dsz then (dictSet dn.1 p.1 dn.2, dn.2 + 1) else dn)
    (seedDict, 256)).1

/-- `code.toString(2)`: binary digits, most significant first, no leading
zeros except for `(0).toString(2) = "0"`.  Structural fuel keeps the
definition kernel-computable; `natBin` supplies adequate fuel. -/
def natBinAux : Nat → Nat → List Bool
  | 0, _ => []
  | fuel + 1, n =>
    if n < 2 then [decide (n = 1)]
    else natBinAux fuel (n / 2) ++ [decide (n % 2 = 1)]

/-- `code.toString(2)` with adequate fuel. -/
def natBin (n : Nat) : List Bool := natBinAux (n + 1) n

/-- `parseInt(chunk, 2)` on a list of binary digits. -/
def bitsToNat (l : List Bool) : Nat :=
  l.foldl (fun a b => 2 * a + (if b then 1 else 0)) 0

/-- `String.prototype.padStart(w, '0')` on binary digits. -/
def padStartF (w : Nat) (l : List Bool) : List Bool :=
  List.replicate (w - l.length) false ++ l

/-- `String.prototype.padEnd(w, '0')` on binary digits. -/
def padEndF (w : Nat) (l : List Bool) : List Bool :=
  l ++ List.replicate (w - l.length) false

/-- `code.toString(2).padStart(w, '0')`. -/
def codeBits (w c : Nat) : List Bool := padStartF w (natBin c)

/-- Concatenation of the per-element encodings (the `binary += …`
accumulation loops). -/
def flatConcat {α β : Type} (f : α → List β) : List α → List β
  | [] => []
  | x :: xs => f x ++ flatConcat f xs

/-- `Math.ceil(Math.log2 n)` for positive integers `n`, with structural
fuel for kernel computability (`ceilLog2` supplies adequate fuel). -/
def ceilLog2Aux : Nat → Nat → Nat
  | 0, _ => 0
  | fuel + 1, n => if n ≤ 1 then 0 else ceilLog2Aux fuel ((n + 1) / 2) + 1

/-- `Math.ceil(Math.log2 n)` for positive integers `n`. -/
def ceilLog2 (n : Nat) : Nat := ceilLog2Aux n n

/-- The 16-bit regrouping loop of `packCompressedData`: slice the binary
string at `i, i+16, …`, zero-pad the final slice, and read each slice as
a character code. -/
def packBits (bin : List Bool) : List Nat :=
  (List.range ((bin.length + 15) / 16)).map
    (fun j => bitsToNat (padEndF 16 ((bin.drop (16 * j)).take 16)))

/-- The code-extraction loop of `unpackCompressedData`: slice the binary
string at `i, i+bits, …` and parse every slice of full width, dropping a
final partial slice. -/
def unpackBits (bits : Nat) (bin : List Bool) : List Nat :=
  (List.range ((bin.length + bits - 1) / bits)).filterMap
    (fun j =>
      let chunk := (bin.drop (bits * j)).take bits
      if chunk.length = bits then some (bitsToNat chunk) else none)

/-- `LZWCompressor.packCompressedData`: each code in
`ceil(log2 dictionarySize)` bits, regrouped into 16-bit characters. -/
def packCompressedData (dsz : Nat) (data : List Nat) : List Nat :=
  packBits (flatConcat (codeBits (ceilLog2 dsz)) data)

/-- `LZWCompressor.unpackCompressedData`: each character contributes 16
bits; complete `bits`-wide slices are parsed back into codes. -/
def unpackCompressedData (dsz : Nat) (packed : List Nat) : List Nat :=
  unpackBits (ceilLog2 dsz) (flatConcat (codeBits 16) packed)

/-- The per-operation state of the compression loop. -/
structure CompressState where
  dict : List (List Nat × Nat)
  dictSize : Nat
  current : List Nat
  result : List Nat
  buffer : List Nat

/-- The `for (const char of input)` loop of `compressData`.  The source's
non-null assertion `dict.get(current)!` is modelled by `Option.getD _ 0`;
for inputs over code units 0–255 the current phrase is always present. -/
def compressLoop (dsz : Nat) : List Nat → CompressState → CompressState
  | [], st => st
  | c :: cs, st =>
    let phrase := st.current ++ [c]
    match dictGet st.dict phrase with
    | some _ => compressLoop dsz cs { st with current := phrase }
    | none =>
      let code := (dictGet st.dict st.current).getD 0
      let result' := st.result ++ [code]
      let buffer' := st.buffer ++ [code]
      if st.dictSize < dsz then
        compressLoop dsz cs
          ⟨dictSet st.dict phrase st.dictSize, st.dictSize + 1, [c],
            result', buffer'⟩
      else
        compressLoop dsz cs
          ⟨rebuildDictionary dsz buffer', 256 + buffer'.length, [c],
            result', buffer'⟩

/-- The compression metadata attached to every compressed payload. -/
structure CompressionMeta where
  originalSize : Nat
  compressedSize : Nat
  algorithm : String
  dictionarySize : Nat

/-- The JSON envelope `{ data, meta }` returned by `compressData` and
parsed back by `decompressData` (`JSON.parse ∘ JSON.stringify` is the
identity on this shape). -/
structure CompressionEnvelope where
  data : List Nat
  meta : CompressionMeta

/-- `LZWCompressor.compressData`. -/
def compressData (c : LZWCompressor) (input : List Nat) :
    CompressionEnvelope :=
  let st := compressLoop c.dictionarySize input ⟨seedDict, 256, [], [], []⟩
  let result :=
    if st.current ≠ [] then st.result ++ [(dictGet st.dict st.current).getD 0]
    else st.result
  { data := packCompressedData c.dictionarySize result
    meta := { originalSize := input.length
              compressedSize := result.length
              algorithm := "LZW-ADAPTIVE"
              dictionarySize := c.dictionarySize } }

/-- The 3-code-unit sliding windows of `findCommonPatterns`
(`windowSize = 3`). -/
def windows3 : List Nat → List (List Nat)
  | a :: b :: c :: rest => [a, b, c] :: windows3 (b :: c :: rest)
  | _ => []

/-- `LZWCompressor.findCommonPatterns`: count the 3-unit windows, sort by
frequency descending (stable), keep the first 100 patterns. -/
def findCommonPatterns (data : List Nat) : List (List Nat) :=
  ((sortByCountDesc ((windows3 data).foldl bumpCount [])).take 100).map
    Prod.fst

/-- `LZWCompressor.rebuildDecompressionDictionary`: reseed with the 256
single code units and push common patterns while below the cap. -/
def rebuildDecompressionDictionary (dsz : Nat) (decompressed : List Nat) :
    List (List Nat) :=
  (findCommonPatterns decompressed).foldl
    (fun d p => if d.length < dsz then d ++ [p] else d)
    ((List.range 256).map (fun i => [i]))

/-- JavaScript array assignment `dict[i] = s`: indices skipped over become
holes, whose reads coerce to the text `"undefined"` in concatenations. -/
def jsArraySet (l : List (List Nat)) (i : Nat) (s : List Nat) :
    List (List Nat) :=
  if i < l.length then l.set i s
  else l ++ List.replicate (i - l.length) undefinedUnits ++ [s]

/-- `s[0]` under string concatenation: the first code unit, or the text
`"undefined"` when `s` is empty. -/
def jsHeadStr (s : List Nat) : List Nat :=
  match s with
  | [] => undefinedUnits
  | c :: _ => [c]

/-- The decoding loop of `decompressData` over `compressed[1…]`; an
out-of-range code raises `CompressionError('Invalid compressed data')`. -/
def decompressLoop (dsz : Nat) :
    List Nat → List (List Nat) → Nat → List Nat → List Nat →
      Except String (List Nat)
  | [], _dict, _dictSize, result, _current => .ok result
  | code :: rest, dict, dictSize, result, current =>
    let entry? : Option (List Nat) :=
      if code < dict.length then some (dict.getD code undefinedUnits)
      else if code = dictSize then some (current ++ jsHeadStr current)
      else none
    match entry? with
    | none => .error "Invalid compressed data"
    | some entry =>
      let result' := result ++ entry
      if dictSize < dsz then
        decompressLoop dsz rest
          (jsArraySet dict dictSize (current ++ jsHeadStr entry))
          (dictSize + 1) result' entry
      else
        decompressLoop dsz rest (rebuildDecompressionDictionary dsz result')
          (256 + result'.length / 2) result' entry

/-- `LZWCompressor.decompressData`.  `String.fromCharCode(compressed[0])`
coerces an absent element (`undefined`, hence `NaN`) to the code unit 0,
and truncates to 16 bits. -/
def decompressData (c : LZWCompressor) (input : CompressionEnvelope) :
    Except String (List Nat) :=
  let compressed := unpackCompressedData c.dictionarySize input.data
  let current := [(compressed.headD 0) % 65536]
  decompressLoop c.dictionarySize (compressed.drop 1)
    ((List.range 256).map (fun i => [i])) 256 current current

/-! ### C2 — compression round-trip -/

set_option maxRecDepth 10000 in
/-- C2 (code bug): the compression round-trip fails even on the empty
string and on one-character inputs.  With `dictionarySize = 512`,
decompressing the compression of the empty string yields the one-NUL
string `"\x00"` (`String.fromCharCode(compressed[0])` coerces the absent
element to code unit 0); with `dictionarySize = 256` (8 bits per code),
the 8 zero bits padding the single 16-bit packed character are decoded as
a spurious extra code 0, so `"A"` decompresses to `"A\x00"`.  The claim —
asserted by the spec and by the repository's own tests
(`expect(result.data).toBe(largeString)`) — is the evident intent; the
code violates it. -/
theorem c2_roundtrip_code_bug :
    (decompressData ⟨512⟩ (compressData ⟨512⟩ []) = Except.ok [0] ∧
      ([0] : List Nat) ≠ []) ∧
    (decompressData ⟨256⟩ (compressData ⟨256⟩ [65]) = Except.ok [65, 0] ∧
      ([65, 0] : List Nat) ≠ [65]) :=
  ⟨⟨rfl, by decide⟩, ⟨rfl, by decide⟩⟩

/-! ### C5 — bit-packing round-trip -/

/-- Counterexample to C5 as stated: with `dictionarySize = 256` (8 bits
per code), packing the single code `65` yields one 16-bit character whose
8 padding bits form a complete extra chunk, so unpacking returns the
spurious code `0` in addition to `65`. -/
theorem c5_pack_unpack_counterexample :
    unpackCompressedData 256 (packCompressedData 256 [65]) = [65, 0] ∧
    ([65, 0] : List Nat) ≠ [65] :=
  ⟨rfl, by decide⟩

/-- With adequate fuel, `ceilLog2Aux` computes `Nat.clog 2`. -/
theorem ceilLog2Aux_eq_clog : ∀ fuel n, n ≤ fuel →
    ceilLog2Aux fuel n = Nat.clog 2 n := by
  intro fuel
  induction fuel with
  | zero =>
    intro n hn
    have : n = 0 := by omega
    subst this
    simp [ceilLog2Aux]
  | succ f ih =>
    intro n hn
    by_cases h1 : n ≤ 1
    · rcases Nat.le_one_iff_eq_zero_or_eq_one.mp h1 with h | h <;>
        subst h <;> simp [ceilLog2Aux]
    · rw [show ceilLog2Aux (f + 1) n = ceilLog2Aux f ((n + 1) / 2) + 1 from by
        simp [ceilLog2Aux, h1]]
      have hfle : (n + 1) / 2 ≤ f := by omega
      have hrec : Nat.clog 2 n = Nat.clog 2 ((n + 1) / 2) + 1 := by
        rw [Nat.clog_of_two_le (by norm_num) (by omega)]
        norm_num
      rw [ih ((n + 1) / 2) hfle, hrec]

/-- `ceilLog2` computes `Nat.clog 2`. -/
theorem ceilLog2_eq_clog (n : Nat) : ceilLog2 n = Nat.clog 2 n :=
  ceilLog2Aux_eq_clog n n le_rfl

/-- A dictionary of at least two codes needs at least one bit. -/
theorem one_le_ceilLog2 {n : Nat} (h : 2 ≤ n) : 1 ≤ ceilLog2 n := by
  rw [ceilLog2_eq_clog]
  exact Nat.clog_pos (by norm_num) (by omega)

/-- Every code below the dictionary size fits in `ceilLog2` bits. -/
theorem le_pow_ceilLog2 (n : Nat) : n ≤ 2 ^ ceilLog2 n := by
  rw [ceilLog2_eq_clog]
  exact Nat.le_pow_clog (by norm_num) n

/-- `natBinAux` is fuel-invariant once the fuel exceeds the argument. -/
theorem natBinAux_congr : ∀ f₁ f₂ n, n < f₁ → n < f₂ →
    natBinAux f₁ n = natBinAux f₂ n := by
  intro f₁
  induction f₁ with
  | zero => intro f₂ n h1 h2; omega
  | succ f ih =>
    intro f₂ n h1 h2
    cases f₂ with
    | zero => omega
    | succ f₂' =>
      by_cases hn : n < 2
      · simp [natBinAux, hn]
      · simp only [natBinAux, hn, if_false]
        rw [ih f₂' (n / 2) (by omega) (by omega)]

/-- The recurrence satisfied by `natBin` (i.e. by `toString(2)`). -/
theorem natBin_def (n : Nat) : natBin n =
    if n < 2 then [decide (n = 1)]
    else natBin (n / 2) ++ [decide (n % 2 = 1)] := by
  by_cases hn : n < 2
  · simp [natBin, natBinAux, hn]
  · rw [show natBin n = natBinAux (n + 1) n from rfl]
    rw [show natBinAux (n + 1) n =
        natBinAux n (n / 2) ++ [decide (n % 2 = 1)] from by
      simp [natBinAux, hn]]
    rw [natBinAux_congr n (n / 2 + 1) (n / 2) (by omega) (by omega)]
    simp [natBin, hn]

/-- Evaluating `parseInt(·, 2)`'s fold from an arbitrary accumulator. -/
theorem bitsToNat_foldl_from (l : List Bool) : ∀ a : Nat,
    l.foldl (fun a b => 2 * a + (if b then 1 else 0)) a =
      a * 2 ^ l.length + bitsToNat l := by
  induction l with
  | nil => intro a; simp [bitsToNat]
  | cons b t ih =>
    intro a
    simp only [List.foldl_cons, List.length_cons]
    rw [ih (2 * a + (if b then 1 else 0))]
    have h2 : bitsToNat (b :: t) =
        (if b then 1 else 0) * 2 ^ t.length + bitsToNat t := by
      show t.foldl _ (2 * 0 + (if b then 1 else 0)) = _
      rw [ih (2 * 0 + (if b then 1 else 0))]
      ring
    rw [h2]
    ring

/-- Value of a bit list in terms of its head and tail. -/
theorem bitsToNat_cons (b : Bool) (t : List Bool) :
    bitsToNat (b :: t) = (if b then 1 else 0) * 2 ^ t.length + bitsToNat t := by
  show t.foldl _ (2 * 0 + (if b then 1 else 0)) = _
  rw [bitsToNat_foldl_from]
  ring

/-- Value of a concatenation of bit lists. -/
theorem bitsToNat_append (l₁ l₂ : List Bool) :
    bitsToNat (l₁ ++ l₂) = bitsToNat l₁ * 2 ^ l₂.length + bitsToNat l₂ := by
  show (l₁ ++ l₂).foldl _ 0 = _
  rw [List.foldl_append]
  exact bitsToNat_foldl_from l₂ _

/-- A bit list of length `w` encodes a value below `2 ^ w`. -/
theorem bitsToNat_lt (l : List Bool) : bitsToNat l < 2 ^ l.length := by
  induction l with
  | nil => simp [bitsToNat]
  | cons b t ih =>
    rw [bitsToNat_cons]
    cases b <;> simp [pow_succ] <;> omega

/-- Zero bits encode zero. -/
theorem bitsToNat_replicate_false (k : Nat) :
    bitsToNat (List.replicate k false) = 0 := by
  induction k with
  | zero => rfl
  | succ k ih => simp [List.replicate_succ, bitsToNat_cons, ih]

/-- `parseInt(·, 2)` inverts `toString(2)`. -/
theorem bitsToNat_natBin (n : Nat) : bitsToNat (natBin n) = n := by
  induction n using Nat.strong_induction_on with
  | _ n ih =>
    rw [natBin_def]
    by_cases hn : n < 2
    · interval_cases n <;> simp [bitsToNat]
    · rw [if_neg hn, bitsToNat_append, ih (n / 2) (by omega)]
      rcases Nat.mod_two_eq_zero_or_one n with h | h <;>
        simp [bitsToNat, h] <;> omega

/-- `toString(2)` of a value below `2 ^ L` has at most `L` digits. -/
theorem natBin_length_le : ∀ n L : Nat, n < 2 ^ L → 1 ≤ L →
    (natBin n).length ≤ L := by
  intro n
  induction n using Nat.strong_induction_on with
  | _ n ih =>
    intro L h hL
    rw [natBin_def]
    by_cases hn : n < 2
    · simp [hn]; omega
    · rw [if_neg hn]
      simp only [List.length_append, List.length_cons, List.length_nil]
      have hL2 : 2 ≤ L := by
        by_contra h2
        have hL1 : L = 1 := by omega
        rw [hL1] at h
        norm_num at h
        omega
      have hdiv : n / 2 < 2 ^ (L - 1) := by
        have hpow : 2 ^ L = 2 * 2 ^ (L - 1) := by
          rw [← pow_succ']
          congr 1
          omega
        rw [hpow] at h
        set K := 2 ^ (L - 1)
        omega
      have hrec := ih (n / 2) (by omega) (L - 1) hdiv (by omega)
      omega

/-- `padStart` with zeros reaches the requested width. -/
theorem length_padStartF {w : Nat} {l : List Bool} (h : l.length ≤ w) :
    (padStartF w l).length = w := by
  simp [padStartF]
  omega

/-- `padStart` with zeros does not change the encoded value. -/
theorem bitsToNat_padStartF (w : Nat) (l : List Bool) :
    bitsToNat (padStartF w l) = bitsToNat l := by
  rw [padStartF, bitsToNat_append, bitsToNat_replicate_false]
  ring

/-- `padEnd` with zeros reaches the requested width. -/
theorem length_padEndF {w : Nat} {l : List Bool} (h : l.length ≤ w) :
    (padEndF w l).length = w := by
  simp [padEndF]
  omega

/-- `padEnd` of a list already at the requested width is the identity. -/
theorem padEndF_of_length {w : Nat} {l : List Bool} (h : l.length = w) :
    padEndF w l = l := by
  simp [padEndF, h]

/-- A code below `2 ^ w` encodes into exactly `w` bits. -/
theorem length_codeBits {w c : Nat} (h : c < 2 ^ w) (hw : 1 ≤ w) :
    (codeBits w c).length = w :=
  length_padStartF (natBin_length_le c w h hw)

/-- Decoding inverts the fixed-width encoding. -/
theorem bitsToNat_codeBits (w c : Nat) : bitsToNat (codeBits w c) = c := by
  rw [codeBits, bitsToNat_padStartF, bitsToNat_natBin]

/-- Two bit lists of equal length with equal values are equal. -/
theorem bits_eq_of_value_eq : ∀ c₁ c₂ : List Bool, c₁.length = c₂.length →
    bitsToNat c₁ = bitsToNat c₂ → c₁ = c₂ := by
  intro c₁
  induction c₁ with
  | nil =>
    intro c₂ h1 _
    cases c₂ with
    | nil => rfl
    | cons b t => simp at h1
  | cons b t ih =>
    intro c₂ h1 h2
    cases c₂ with
    | nil => simp at h1
    | cons b₂ t₂ =>
      simp only [List.length_cons] at h1
      have hlen : t.length = t₂.length := by omega
      rw [bitsToNat_cons, bitsToNat_cons, hlen] at h2
      have hv1 := bitsToNat_lt t
      have hv2 := bitsToNat_lt t₂
      rw [hlen] at hv1
      have hb : b = b₂ := by
        cases b <;> cases b₂ <;> simp at h2 ⊢ <;> omega
      subst hb
      have hv : bitsToNat t = bitsToNat t₂ := by
        cases b <;> simp at h2 <;> omega
      rw [ih t₂ hlen hv]

/-- The fixed-width encoding inverts decoding on lists of that width. -/
theorem codeBits_bitsToNat {w : Nat} {c : List Bool} (h : c.length = w)
    (hw : 1 ≤ w) : codeBits w (bitsToNat c) = c := by
  have hlt : bitsToNat c < 2 ^ w := by
    rw [← h]
    exact bitsToNat_lt c
  apply bits_eq_of_value_eq
  · rw [length_codeBits hlt hw, h]
  · rw [bitsToNat_codeBits]

/-- Length of a concatenation of constant-width encodings. -/
theorem flatConcat_length_const {α : Type} (f : α → List Bool) (w : Nat) :
    ∀ l : List α, (∀ x ∈ l, (f x).length = w) →
      (flatConcat f l).length = w * l.length := by
  intro l
  induction l with
  | nil => intro _; simp [flatConcat]
  | cons x xs ih =>
    intro h
    simp only [flatConcat, List.length_append, List.length_cons]
    rw [h x (by simp), ih (fun y hy => h y (by simp [hy]))]
    ring

/-- `flatConcat` over a mapped list composes the functions. -/
theorem flatConcat_map {α β γ : Type} (f : β → List γ) (g : α → β) :
    ∀ l : List α, flatConcat f (l.map g) = flatConcat (fun x => f (g x)) l := by
  intro l
  induction l with
  | nil => rfl
  | cons x xs ih => simp only [List.map_cons, flatConcat, ih]

/-- `flatConcat` respects pointwise-equal functions. -/
theorem flatConcat_congr {α β : Type} {f g : α → List β} :
    ∀ l : List α, (∀ x ∈ l, f x = g x) → flatConcat f l = flatConcat g l := by
  intro l
  induction l with
  | nil => intro _; rfl
  | cons x xs ih =>
    intro h
    simp only [flatConcat]
    rw [h x (by simp), ih (fun y hy => h y (by simp [hy]))]

/-- `filterMap` respects pointwise-equal functions. -/
theorem filterMap_congr_fn {α β : Type} {f g : α → Option β} :
    ∀ l : List α, (∀ x ∈ l, f x = g x) → l.filterMap f = l.filterMap g := by
  intro l
  induction l with
  | nil => intro _; rfl
  | cons x xs ih =>
    intro h
    simp only [List.filterMap_cons]
    rw [h x (by simp), ih (fun y hy => h y (by simp [hy]))]

/-- Peeling one full `bits`-wide slice off the front of the binary string
yields its value followed by the unpacking of the remainder. -/
theorem unpackBits_peel {bits : Nat} (hb : 1 ≤ bits) (A R : List Bool)
    (hA : A.length = bits) :
    unpackBits bits (A ++ R) = bitsToNat A :: unpackBits bits R := by
  have hlen : (A ++ R).length = bits + R.length := by simp [hA]
  have hcount : ((A ++ R).length + bits - 1) / bits =
      (R.length + bits - 1) / bits + 1 := by
    rw [hlen, show bits + R.length + bits - 1 = R.length + bits - 1 + bits from
      by omega, Nat.add_div_right _ (by omega)]
  unfold unpackBits
  rw [hcount, List.range_succ_eq_map, List.filterMap_cons, List.filterMap_map]
  have hchunk0 : ((A ++ R).drop (bits * 0)).take bits = A := by
    simp only [Nat.mul_zero, List.drop_zero]
    rw [← hA, List.take_left]
  rw [hchunk0]  -- may fail inside let; fallback below
  simp only [hA, if_pos]
  congr 1
  apply filterMap_congr_fn
  intro j _
  have hdrop : (A ++ R).drop (bits * (Nat.succ j)) = R.drop (bits * j) := by
    rw [Nat.mul_succ, show bits * j + bits = bits + bits * j from by omega]
    rw [← List.drop_drop, ← hA, List.drop_left]
  simp only [Function.comp, hdrop]

/-- Unpacking pure zero-padding yields one spurious zero code per complete
`bits`-wide slice; the final partial slice is dropped. -/
theorem unpackBits_replicate {bits : Nat} (hb : 1 ≤ bits) :
    ∀ p : Nat, unpackBits bits (List.replicate p false) =
      List.replicate (p / bits) 0 := by
  intro p
  induction p using Nat.strong_induction_on with
  | _ p ih =>
    by_cases hp0 : p = 0
    · subst hp0
      have hc : (0 + bits - 1) / bits = 0 := Nat.div_eq_of_lt (by omega)
      simp only [unpackBits, List.replicate, List.length_nil, hc,
        List.range_zero, List.filterMap_nil, Nat.zero_div]
    · by_cases hpb : p < bits
      · have hcount : (p + bits - 1) / bits = 1 :=
          Nat.div_eq_of_lt_le (by omega) (by omega)
        have hdiv : p / bits = 0 := Nat.div_eq_of_lt hpb
        simp only [unpackBits, List.length_replicate, hcount, hdiv]
        rw [show List.range 1 = [0] from rfl]
        simp only [List.filterMap_cons, Nat.mul_zero, List.drop_zero,
          List.take_replicate, List.length_replicate,
          Nat.min_eq_right (le_of_lt hpb)]
        rw [if_neg (show ¬ p = bits from by omega)]
        simp [List.replicate]
      · push_neg at hpb
        have hsplit : List.replicate p false =
            List.replicate bits false ++ List.replicate (p - bits) false := by
          rw [← List.replicate_add]
          congr 1
          omega
        have hquot : p / bits = (p - bits) / bits + 1 := by
          conv_lhs => rw [show p = p - bits + bits from by omega]
          rw [Nat.add_div_right _ (by omega)]
        rw [hsplit,
          unpackBits_peel hb _ _ (List.length_replicate bits false),
          ih (p - bits) (by omega), bitsToNat_replicate_false, hquot,
          List.replicate_succ]

/-- Unpacking the concatenated fixed-width encodings of a code list,
followed by zero padding, recovers the codes followed by one spurious
zero code per complete `bits`-wide slice of the padding. -/
theorem unpackBits_flatConcat {bits : Nat} (hb : 1 ≤ bits) :
    ∀ (codes : List Nat) (p : Nat), (∀ c ∈ codes, c < 2 ^ bits) →
      unpackBits bits
          (flatConcat (codeBits bits) codes ++ List.replicate p false) =
        codes ++ List.replicate (p / bits) 0 := by
  intro codes
  induction codes with
  | nil =>
    intro p _
    simpa [flatConcat] using unpackBits_replicate hb p
  | cons c cs ih =>
    intro p h
    have hc : c < 2 ^ bits := h c (by simp)
    have hlen : (codeBits bits c).length = bits := length_codeBits hc hb
    rw [show flatConcat (codeBits bits) (c :: cs) =
        codeBits bits c ++ flatConcat (codeBits bits) cs from rfl]
    rw [List.append_assoc, unpackBits_peel hb _ _ hlen, bitsToNat_codeBits,
      ih p (fun x hx => h x (by simp [hx]))]
    rfl

/-- Reconstructing the binary string from the packed 16-bit characters
gives back the original bits followed by the final slice's zero padding. -/
theorem packBits_reconstruct : ∀ L : Nat, ∀ bin : List Bool,
    bin.length = L →
    flatConcat (codeBits 16) (packBits bin) =
      bin ++ List.replicate ((16 - bin.length % 16) % 16) false := by
  intro L
  induction L using Nat.strong_induction_on with
  | _ L ih =>
    intro bin hlen
    by_cases h0 : bin.length = 0
    · have hnil : bin = [] := List.eq_nil_of_length_eq_zero h0
      subst hnil
      rfl
    · have hL1 : 1 ≤ bin.length := by omega
      have hcount : (bin.length + 15) / 16 =
          ((bin.drop 16).length + 15) / 16 + 1 := by
        simp only [List.length_drop]
        omega
      unfold packBits
      rw [hcount, List.range_succ_eq_map, List.map_cons, List.map_map]
      simp only [flatConcat]
      have htail :
          (List.range (((bin.drop 16).length + 15) / 16)).map
            ((fun j => bitsToNat (padEndF 16 ((bin.drop (16 * j)).take 16))) ∘
              Nat.succ) = packBits (bin.drop 16) := by
        unfold packBits
        apply List.map_congr_left
        intro j _
        have hdrop : bin.drop (16 * Nat.succ j) = (bin.drop 16).drop (16 * j) := by
          rw [List.drop_drop, Nat.mul_succ]
          congr 1
          omega
        simp only [Function.comp, hdrop]
      rw [htail, ih (bin.drop 16).length (by simp [List.length_drop]; omega)
        (bin.drop 16) rfl]
      by_cases h16 : 16 ≤ bin.length
      · have htake : (bin.take 16).length = 16 := by
          simp [List.length_take]
          omega
        have hpad : padEndF 16 (bin.take 16) = bin.take 16 :=
          padEndF_of_length htake
        rw [Nat.mul_zero, List.drop_zero, hpad,
          codeBits_bitsToNat htake (by norm_num)]
        rw [← List.append_assoc, List.take_append_drop]
        congr 2
        simp only [List.length_drop]
        omega
      · have hlt : bin.length < 16 := by omega
        have htake : bin.take 16 = bin := List.take_of_length_le (by omega)
        have hlenpad : (padEndF 16 bin).length = 16 := length_padEndF (by omega)
        have hdropnil : bin.drop 16 = [] := by
          apply List.drop_eq_nil_of_le
          omega
        rw [Nat.mul_zero, List.drop_zero, htake,
          codeBits_bitsToNat hlenpad (by norm_num), hdropnil]
        simp only [List.length_nil, List.nil_append, Nat.zero_mod,
          Nat.sub_zero, Nat.mod_self, List.replicate, List.append_nil,
          padEndF]
        rw [show 16 - bin.length = (16 - bin.length % 16) % 16 from by omega]

/-- C5 (amended): for every configured `dictionarySize ≥ 2` and every
code list whose codes are below it, `unpackCompressedData ∘
packCompressedData` returns the original codes followed by exactly
`⌊padding / bits⌋` spurious zero codes, where `bits = ceil(log2
dictionarySize)` and `padding = (16 - (bits·n) mod 16) mod 16` is the
zero-padding of the final 16-bit group.  The round-trip is exact iff that
quotient is zero; in particular it fails whenever the padding is at least
`bits` wide (e.g. one code at `dictionarySize = 256`). -/
theorem c5_pack_unpack_roundtrip (dsz : Nat) (codes : List Nat)
    (hdsz : 2 ≤ dsz) (hcodes : ∀ c ∈ codes, c < dsz) :
    unpackCompressedData dsz (packCompressedData dsz codes) =
      codes ++ List.replicate
        (((16 - (ceilLog2 dsz * codes.length) % 16) % 16) / ceilLog2 dsz) 0 := by
  have hb : 1 ≤ ceilLog2 dsz := one_le_ceilLog2 hdsz
  have hlt : ∀ c ∈ codes, c < 2 ^ ceilLog2 dsz := fun c hc =>
    lt_of_lt_of_le (hcodes c hc) (le_pow_ceilLog2 dsz)
  have hlen : (flatConcat (codeBits (ceilLog2 dsz)) codes).length =
      ceilLog2 dsz * codes.length :=
    flatConcat_length_const _ _ codes
      (fun c hc => length_codeBits (hlt c hc) hb)
  unfold unpackCompressedData packCompressedData
  rw [packBits_reconstruct (flatConcat (codeBits (ceilLog2 dsz)) codes).length
    _ rfl, hlen]
  exact unpackBits_flatConcat hb codes _ hlt

/-- Witness for the amended C5 at concrete inputs: one 8-bit code packed
at `dictionarySize = 256` comes back with exactly one spurious zero. -/
theorem c5_pack_unpack_witness :
    unpackCompressedData 256 (packCompressedData 256 [65]) =
      [65] ++ List.replicate
        (((16 - (ceilLog2 256 * [65].length) % 16) % 16) / ceilLog2 256) 0 :=
  c5_pack_unpack_roundtrip 256 [65] (by norm_num) (by decide)
